import Mathlib

/-!
Verification of the KIMEP F2025 schedule-dashboard data pipeline
(`f2025_streamlit.py`) against its natural-language specification.

The pandas DataFrame is modelled as a `List Row`; a nullable cell of a
typed column is an `Option` value (pandas `NaN`/`None` is `none`).  After
the load-time coercion, text columns hold `Option String` and numeric
columns hold `Option ℚ` (floats are modelled by exact rationals).  Pandas
`astype(str)` maps `NaN` to the literal string `"nan"`, which `strOfOpt`
reproduces.  `pd.Series.unique`/`drop_duplicates` treat `NaN` as equal to
`NaN`, while the comparison `series == value` is `False` on `NaN`; both
behaviours are modelled explicitly below.
-/

namespace F2025

/-- One row of the uploaded schedule table, restricted to the columns the
verified queries read.  All fields default to `none`/`[]` so concrete test
rows can list only the cells they populate. -/
structure Row where
  idx : Option ℤ := none
  code : Option String := none
  college : Option String := none
  days : List (Option String) := []
  hall : Option String := none
  hallCapacity : Option ℚ := none
  regStud : Option ℚ := none
  duration : Option ℚ := none
  typ : Option String := none
deriving DecidableEq, Repr

/-- Pandas `astype(str)` on an already-coerced text column: a real value is
unchanged, `NaN` becomes the literal string `"nan"`. -/
def strOfOpt : Option String → String
  | none => "nan"
  | some s => s

/-- The regex class `\d` of `re.search(r'\d', ...)`: an ASCII decimal digit. -/
def isDigitChar (c : Char) : Bool :=
  48 ≤ c.toNat && c.toNat ≤ 57

/-- Left-to-right scan for the first decimal digit, returning its value:
the character-level content of `re.search(r'\d', s)` plus `int(...)`. -/
def firstDigitChars : List Char → Option ℕ
  | [] => none
  | c :: cs => if isDigitChar c then some (c.toNat - 48) else firstDigitChars cs

/-- `extract_first_digit` (f2025_streamlit.py lines 68-73): `None` for a
null cell, otherwise the value of the first digit of the code string, or
`None` when the string has no digit. -/
def extract_first_digit (code : Option String) : Option ℕ :=
  match code with
  | none => none
  | some s => firstDigitChars s.toList

/-- The four course levels of the dashboard's key metrics. -/
inductive CourseLevel where
  | foundation
  | undergraduate
  | graduate
  | unknown
deriving DecidableEq, Repr

/-- Course-level classification as the key-metric blocks implement it
(lines 91-107): bucket membership of the first digit, `isin([1,2,3,4])`,
`isin([5,6,7,8,9])`, `== 0`; rows without a first digit are the Unknown
level (they are excluded from `df_unique`). -/
def courseLevel (code : Option String) : CourseLevel :=
  match extract_first_digit code with
  | none => CourseLevel.unknown
  | some d =>
    if [1, 2, 3, 4].contains d then CourseLevel.undergraduate
    else if [5, 6, 7, 8, 9].contains d then CourseLevel.graduate
    else if d = 0 then CourseLevel.foundation
    else CourseLevel.unknown

/-- Restatement of the specification's classification rule, written as the
spec words it: take the first character in the digit set of the string
(here via `filter`/`head?` rather than the recursive scan), then map
0 to Foundation, 1-4 to Undergraduate, 5-9 to Graduate, and classify
Unknown when the cell is null or has no digit. -/
def courseLevelSpec (code : Option String) : CourseLevel :=
  match code with
  | none => CourseLevel.unknown
  | some s =>
    match (s.toList.filter isDigitChar).head? with
    | none => CourseLevel.unknown
    | some c =>
      let d := c.toNat - 48
      if d = 0 then CourseLevel.foundation
      else if 1 ≤ d ∧ d ≤ 4 then CourseLevel.undergraduate
      else if 5 ≤ d ∧ d ≤ 9 then CourseLevel.graduate
      else CourseLevel.unknown

lemma firstDigitChars_eq_filter_head (l : List Char) :
    firstDigitChars l = (l.filter isDigitChar).head?.map fun c => c.toNat - 48 := by
  induction l with
  | nil => rfl
  | cons c cs ih =>
    by_cases h : isDigitChar c
    · simp [firstDigitChars, h, List.filter_cons]
    · simp [firstDigitChars, h, List.filter_cons, ih]

lemma firstDigitChars_le_nine {l : List Char} {d : ℕ}
    (h : firstDigitChars l = some d) : d ≤ 9 := by
  induction l with
  | nil => simp [firstDigitChars] at h
  | cons c cs ih =>
    by_cases hc : isDigitChar c
    · simp [firstDigitChars, hc] at h
      have hle : c.toNat ≤ 57 := by
        have := hc
        simp [isDigitChar, Bool.and_eq_true, decide_eq_true_eq] at this
        exact this.2
      omega
    · simp [firstDigitChars, hc] at h
      exact ih h

lemma extract_first_digit_le_nine {code : Option String} {d : ℕ}
    (h : extract_first_digit code = some d) : d ≤ 9 := by
  cases code with
  | none => simp [extract_first_digit] at h
  | some s => exact firstDigitChars_le_nine h

/-- C1: the course-level classification scans the `Code` cell left-to-right
for its first decimal digit and maps 0 to Foundation, 1-4 to Undergraduate,
5-9 to Graduate, and no digit (or a null cell) to Unknown.  The function is
a total Lean function, hence deterministic and never-raising, and it agrees
with the specification's first-digit rule on every input; the spec's worked
examples are confirmed. -/
theorem c1_course_level (code : Option String) :
    courseLevel code = courseLevelSpec code ∧
    courseLevel none = CourseLevel.unknown ∧
    courseLevel (some "ECO201") = CourseLevel.undergraduate ∧
    courseLevel (some "MBA601") = CourseLevel.graduate ∧
    courseLevel (some "FND005") = CourseLevel.foundation ∧
    courseLevel (some "ABC") = CourseLevel.unknown := by
  refine ⟨?_, by decide, by decide, by decide, by decide, by decide⟩
  cases code with
  | none => rfl
  | some s =>
    have hkey : extract_first_digit (some s)
        = (s.toList.filter isDigitChar).head?.map fun c => c.toNat - 48 :=
      firstDigitChars_eq_filter_head s.toList
    cases hh : (s.toList.filter isDigitChar).head? with
    | none =>
      have h1 : extract_first_digit (some s) = none := by rw [hkey, hh]; rfl
      simp only [courseLevel, courseLevelSpec, h1, hh]
    | some c =>
      have h1 : extract_first_digit (some s) = some (c.toNat - 48) := by rw [hkey, hh]; rfl
      have hb : c.toNat - 48 ≤ 9 := extract_first_digit_le_nine h1
      simp only [courseLevel, courseLevelSpec, h1, hh]
      set d := c.toNat - 48 with hdd
      interval_cases d <;> decide

/-! ### C2: level counts over Index-deduplicated rows -/

/-- `df.drop_duplicates(subset=['Index'])` (line 79): keep the first row for
each `Index` value.  Pandas treats two `NaN` keys as duplicates of each
other, which plain `Option ℤ` equality reproduces. -/
def dedupeByIndexAux : List Row → List (Option ℤ) → List Row
  | [], _ => []
  | r :: rs, seen =>
    if r.idx ∈ seen then dedupeByIndexAux rs seen
    else r :: dedupeByIndexAux rs (r.idx :: seen)

def dedupeByIndex (rows : List Row) : List Row :=
  dedupeByIndexAux rows []

/-- `df_unique` (line 82): the Index-deduplicated rows whose `First_Digit`
is not null. -/
def dfUnique (rows : List Row) : List Row :=
  (dedupeByIndex rows).filter fun r => (extract_first_digit r.code).isSome

/-- `total_courses_count` (line 87). -/
def totalCourses (rows : List Row) : ℕ :=
  (dfUnique rows).length

/-- `undergrad_count_new` (line 93): first digit in `[1, 2, 3, 4]`. -/
def undergradCount (rows : List Row) : ℕ :=
  (dfUnique rows).countP fun r =>
    match extract_first_digit r.code with
    | some d => [1, 2, 3, 4].contains d
    | none => false

/-- `master_count` (line 100): first digit in `[5, 6, 7, 8, 9]`. -/
def masterCount (rows : List Row) : ℕ :=
  (dfUnique rows).countP fun r =>
    match extract_first_digit r.code with
    | some d => [5, 6, 7, 8, 9].contains d
    | none => false

/-- `foundation_count` (line 106): first digit equal to 0. -/
def foundationCount (rows : List Row) : ℕ :=
  (dfUnique rows).countP fun r =>
    match extract_first_digit r.code with
    | some d => d = 0
    | none => false

lemma dedupeByIndexAux_nodup (rows : List Row) :
    ∀ seen : List (Option ℤ),
      ((dedupeByIndexAux rows seen).map fun r => r.idx).Nodup ∧
      ∀ i ∈ (dedupeByIndexAux rows seen).map fun r => r.idx, i ∉ seen := by
  induction rows with
  | nil => intro seen; simp [dedupeByIndexAux]
  | cons r rs ih =>
    intro seen
    by_cases h : r.idx ∈ seen
    · simpa [dedupeByIndexAux, h] using ih seen
    · have h2 := ih (r.idx :: seen)
      refine ⟨?_, ?_⟩
      · simp only [dedupeByIndexAux, h, if_false, List.map_cons, List.nodup_cons]
        constructor
        · intro hmem
          exact (h2.2 _ hmem) (List.mem_cons_self _ _)
        · exact h2.1
      · intro i hi hiseen
        simp only [dedupeByIndexAux, h, if_false, List.map_cons, List.mem_cons] at hi
        rcases hi with rfl | hi
        · exact h hiseen
        · exact (h2.2 _ hi) (List.mem_cons_of_mem _ hiseen)

/-- Three Boolean predicates that pointwise split a fourth one count up to
it: the common counting core behind the level counts and the occupancy
buckets. -/
lemma countP_three_split (p₁ p₂ p₃ q : Row → Bool) (l : List Row)
    (h : ∀ r ∈ l, (p₁ r).toNat + (p₂ r).toNat + (p₃ r).toNat = (q r).toNat) :
    l.countP p₁ + l.countP p₂ + l.countP p₃ = l.countP q := by
  induction l with
  | nil => simp
  | cons r rs ih =>
    have hr := h r (List.mem_cons_self _ _)
    have hrs := ih fun x hx => h x (List.mem_cons_of_mem _ hx)
    simp only [List.countP_cons]
    cases hp₁ : p₁ r <;> cases hp₂ : p₂ r <;> cases hp₃ : p₃ r <;> cases hq : q r <;>
      simp [hp₁, hp₂, hp₃, hq] at hr ⊢ <;> omega

/-- The 3-row end-to-end scenario of spec §8: two rows of "ACC101" sharing
Index 10, one row of "PSY502" with Index 20. -/
def scenarioRows : List Row :=
  [{ idx := some 10, code := some "ACC101", college := some "BCB", regStud := some 20 },
   { idx := some 10, code := some "ACC101", college := some "BCB" },
   { idx := some 20, code := some "PSY502", college := some "CHSE", regStud := some 15 }]

/-- C2: the level-count query deduplicates by `Index` keeping the first row
per Index (so the deduplicated Index list has no duplicates: a section
meeting on several days is counted once, never per-day), then drops rows
whose level is Unknown; the per-level counts partition the grand total of
non-Unknown deduplicated rows, and the spec's 3-row scenario yields
Undergraduate = 1, Graduate = 1, Total = 2. -/
theorem c2_level_counts (rows : List Row) :
    (((dedupeByIndex rows).map fun r => r.idx).Nodup) ∧
    dfUnique rows
      = ((dedupeByIndex rows).filter fun r => !(courseLevel r.code == CourseLevel.unknown)) ∧
    undergradCount rows + masterCount rows + foundationCount rows = totalCourses rows ∧
    undergradCount scenarioRows = 1 ∧
    masterCount scenarioRows = 1 ∧
    foundationCount scenarioRows = 0 ∧
    totalCourses scenarioRows = 2 := by
  refine ⟨(dedupeByIndexAux_nodup rows []).1, ?_, ?_, by decide, by decide, by decide, by decide⟩
  · unfold dfUnique
    apply List.filter_congr
    intro r _
    cases hd : extract_first_digit r.code with
    | none => simp [courseLevel, hd]
    | some d =>
      have hb : d ≤ 9 := extract_first_digit_le_nine hd
      simp only [courseLevel, hd, Option.isSome_some]
      interval_cases d <;> decide
  · unfold undergradCount masterCount foundationCount totalCourses
    have htrue : (dfUnique rows).countP (fun _ => true) = (dfUnique rows).length := by simp
    rw [← htrue]
    apply countP_three_split
    intro r hr
    have : (extract_first_digit r.code).isSome := by
      have := List.mem_filter.mp hr
      simpa using this.2
    cases hd : extract_first_digit r.code with
    | none => rw [hd] at this; simp at this
    | some d =>
      have hb : d ≤ 9 := extract_first_digit_le_nine hd
      simp only [hd]
      interval_cases d <;> decide

/-! ### C3: occupancy rate -/

/-- Round to the nearest integer, ties to the nearest even integer: the
rounding used by `numpy`/`pandas.Series.round` (floats are modelled by
exact rationals). -/
def roundHalfEven (q : ℚ) : ℤ :=
  if q - ⌊q⌋ < 1 / 2 then ⌊q⌋
  else if 1 / 2 < q - ⌊q⌋ then ⌊q⌋ + 1
  else if ⌊q⌋ % 2 = 0 then ⌊q⌋ else ⌊q⌋ + 1

/-- `Series.round(1)`: scale by ten, round half-to-even, scale back. -/
def round1 (q : ℚ) : ℚ :=
  (roundHalfEven (q * 10) : ℚ) / 10

/-- `Occupancy_Rate` (lines 906-909):
`(reg / cap.replace(0, NA) * 100).fillna(0).round(1)` — the division is
null when the capacity is null or zero, or when `Reg. Stud.` is null, and
`fillna(0)` turns that null into 0 before rounding. -/
def occupancyRate (reg cap : Option ℚ) : ℚ :=
  let ratio : Option ℚ :=
    match cap with
    | none => none
    | some c => if c = 0 then none else reg.map fun r => r / c * 100
  round1 (ratio.getD 0)

/-- Restatement of the specification's occupancy-rate rule: 0 when the
capacity is null or exactly 0, otherwise `Reg. Stud. / capacity * 100`
rounded to one decimal with a null `Reg. Stud.` treated as 0. -/
def occupancyRateSpec (reg cap : Option ℚ) : ℚ :=
  match cap with
  | none => 0
  | some c => if c = 0 then 0 else round1 (reg.getD 0 / c * 100)

lemma roundHalfEven_intCast (n : ℤ) : roundHalfEven (n : ℚ) = n := by
  unfold roundHalfEven
  rw [Int.floor_intCast]
  norm_num

lemma round1_intCast (n : ℤ) : round1 (n : ℚ) = (n : ℚ) := by
  unfold round1
  have h : (n : ℚ) * 10 = ((n * 10 : ℤ) : ℚ) := by push_cast; ring
  rw [h, roundHalfEven_intCast]
  push_cast
  ring

lemma round1_eq_intCast {q : ℚ} {n : ℤ} (h : q = (n : ℚ)) : round1 q = (n : ℚ) := by
  rw [h, round1_intCast]

lemma round1_zero : round1 0 = 0 := by
  have := round1_intCast 0
  simpa using this

lemma roundHalfEven_nonneg {q : ℚ} (h : 0 ≤ q) : 0 ≤ roundHalfEven q := by
  have hf : (0 : ℤ) ≤ ⌊q⌋ := Int.le_floor.mpr (by exact_mod_cast h)
  unfold roundHalfEven
  split
  · exact hf
  · split
    · omega
    · split
      · exact hf
      · omega

lemma round1_nonneg {q : ℚ} (h : 0 ≤ q) : 0 ≤ round1 q := by
  unfold round1
  have h10 : (0 : ℚ) ≤ q * 10 := by positivity
  have := roundHalfEven_nonneg h10
  have hcast : (0 : ℚ) ≤ (roundHalfEven (q * 10) : ℚ) := by exact_mod_cast this
  positivity

/-- C3: the occupancy-rate computation agrees with the specification on
every pair of nullable inputs — 0 when the capacity is null or zero,
otherwise `Reg. Stud. / capacity * 100` rounded to one decimal with null
`Reg. Stud.` as 0; it is always defined (it is a total function into ℚ),
nonnegative on nonnegative inputs, not capped at 100, and matches the
spec's worked examples. -/
theorem c3_occupancy_rate (reg cap : Option ℚ) :
    occupancyRate reg cap = occupancyRateSpec reg cap ∧
    (0 ≤ reg.getD 0 → 0 ≤ cap.getD 0 → 0 ≤ occupancyRate reg cap) ∧
    occupancyRate (some 0) (some 0) = 0 ∧
    occupancyRate (some 30) (some 0) = 0 ∧
    occupancyRate (some 25) (some 50) = 50 ∧
    100 < occupancyRate (some 30) (some 20) := by
  have heq : occupancyRate reg cap = occupancyRateSpec reg cap := by
    cases cap with
    | none => simp [occupancyRate, occupancyRateSpec, round1_zero]
    | some c =>
      by_cases hc : c = 0
      · simp [occupancyRate, occupancyRateSpec, hc, round1_zero]
      · cases reg with
        | none =>
          simp [occupancyRate, occupancyRateSpec, hc, round1_zero]
        | some r => simp [occupancyRate, occupancyRateSpec, hc]
  refine ⟨heq, ?_, ?_, ?_, ?_, ?_⟩
  · intro hreg hcap
    rw [heq]
    cases cap with
    | none => simp [occupancyRateSpec]
    | some c =>
      by_cases hc : c = 0
      · simp [occupancyRateSpec, hc]
      · simp only [occupancyRateSpec, if_neg hc]
        apply round1_nonneg
        have hc' : 0 < c := lt_of_le_of_ne (by simpa using hcap) (Ne.symm hc)
        have : 0 ≤ reg.getD 0 / c := div_nonneg hreg hc'.le
        positivity
  · simp [occupancyRate, round1_zero]
  · simp [occupancyRate, round1_zero]
  · show round1 ((25 : ℚ) / 50 * 100) = 50
    have : round1 ((25 : ℚ) / 50 * 100) = ((50 : ℤ) : ℚ) :=
      round1_eq_intCast (by norm_num)
    rw [this]; norm_num
  · show (100 : ℚ) < round1 ((30 : ℚ) / 20 * 100)
    have : round1 ((30 : ℚ) / 20 * 100) = ((150 : ℤ) : ℚ) :=
      round1_eq_intCast (by norm_num)
    rw [this]; norm_num

/-- Witness for C3: the nonnegativity hypotheses are discharged at the
concrete input `Reg. Stud. = 25`, `Hall capacity = 50`. -/
theorem c3_occupancy_rate_witness :
    0 ≤ (some (25 : ℚ)).getD 0 ∧ 0 ≤ (some (50 : ℚ)).getD 0 ∧
      0 ≤ occupancyRate (some 25) (some 50) :=
  ⟨by norm_num, by norm_num,
    (c3_occupancy_rate (some 25) (some 50)).2.1 (by norm_num) (by norm_num)⟩

/-! ### C4: back-to-back collapsing for the duration distribution -/

/-- Does `pat` occur as a contiguous substring?  Character-level content of
`Series.str.contains(pat)` for a plain-text pattern. -/
def startsWithChars : List Char → List Char → Bool
  | [], _ => true
  | _ :: _, [] => false
  | p :: ps, c :: cs => p == c && startsWithChars ps cs

def containsSub (pat : List Char) : List Char → Bool
  | [] => pat.isEmpty
  | c :: cs => startsWithChars pat (c :: cs) || containsSub pat cs

/-- `Is_BackToBack` (line 401):
`Type.astype(str).str.contains('back', case=False, na=False)` — matching is
case-folded, and a null `Type` becomes the string `"nan"`, which does not
contain "back". -/
def isBackToBack (r : Row) : Bool :=
  containsSub ("back".toList) ((strOfOpt r.typ).toList.map Char.toLower)

/-- The pandas comparison `df['Code'] == code` applied to one row: `NaN`
compares unequal to everything, including another `NaN`. -/
def codeMatches (c : Option String) (r : Row) : Bool :=
  match c, r.code with
  | some a, some b => a == b
  | _, _ => false

/-- Rows `r` and `s` share a (non-null) `Code`. -/
def sharesCode (r s : Row) : Bool :=
  codeMatches r.code s

/-- `back_to_back_codes` (line 404): the codes of the back-to-back rows.
(`pd.Series.unique` also removes duplicate codes; marking a code a second
time changes nothing, so the duplicates are kept here.) -/
def b2bCodes (rows : List Row) : List (Option String) :=
  (rows.filter isBackToBack).map fun r => r.code

/-- Set the skip flag on every row matching `c`. -/
def markAllCode (c : Option String) : List (Row × Bool) → List (Row × Bool)
  | [] => []
  | p :: ps => (p.1, p.2 || codeMatches c p.1) :: markAllCode c ps

/-- Keep the first row matching `c`, set the skip flag on every later
match: `df_duration.loc[code_rows.index[1:], 'Skip'] = True` (lines
408-412). -/
def markAfterFirst (c : Option String) : List (Row × Bool) → List (Row × Bool)
  | [] => []
  | p :: ps =>
    if codeMatches c p.1 then p :: markAllCode c ps else p :: markAfterFirst c ps

/-- One iteration of the marking loop (lines 407-412): the rows with code
`c` are marked after the first only when more than one row matches. -/
def markCode (c : Option String) (ps : List (Row × Bool)) : List (Row × Bool) :=
  if 1 < (ps.filter fun p => codeMatches c p.1).length then markAfterFirst c ps else ps

/-- The final `Skip` column: start all-false (line 405) and run the marking
loop over the back-to-back codes. -/
def skipMarks (rows : List Row) : List (Row × Bool) :=
  (b2bCodes rows).foldl (fun ps c => markCode c ps) (rows.map fun r => (r, false))

/-- `df_duration = df_duration[~df_duration['Skip']]` (line 414). -/
def collapsed (rows : List Row) : List Row :=
  ((skipMarks rows).filter fun p => !p.2).map fun p => p.1

/-- `Effective_Duration` (lines 417-420): 150 for a back-to-back row,
otherwise the row's own `Duration`. -/
def effectiveDuration (r : Row) : Option ℚ :=
  if isBackToBack r then some 150 else r.duration

/-- The specification's suppression rule for the row at position `i`: the
row shares its `Code` with a group in which at least one row is
back-to-back, and it is not the first row of that group in original
order. -/
def suppressedSpec (rows : List Row) (i : ℕ) (r : Row) : Bool :=
  (rows.any fun s => sharesCode r s && isBackToBack s) &&
    ((rows.take i).any fun s => sharesCode r s)

/-- Restatement of the specification's collapsing rule: keep exactly the
rows that are not suppressed. -/
def collapsedSpec (rows : List Row) : List Row :=
  (rows.enum.filter fun p => !suppressedSpec rows p.1 p.2).map fun p => p.2

lemma markAllCode_map_fst (c : Option String) (ps : List (Row × Bool)) :
    (markAllCode c ps).map (fun p => p.1) = ps.map fun p => p.1 := by
  induction ps with
  | nil => rfl
  | cons p ps ih => simp [markAllCode, ih]

lemma markAfterFirst_map_fst (c : Option String) (ps : List (Row × Bool)) :
    (markAfterFirst c ps).map (fun p => p.1) = ps.map fun p => p.1 := by
  induction ps with
  | nil => rfl
  | cons p ps ih =>
    by_cases h : codeMatches c p.1
    · simp [markAfterFirst, h, markAllCode_map_fst]
    · simp [markAfterFirst, h, ih]

lemma markCode_map_fst (c : Option String) (ps : List (Row × Bool)) :
    (markCode c ps).map (fun p => p.1) = ps.map fun p => p.1 := by
  unfold markCode
  split
  · exact markAfterFirst_map_fst c ps
  · rfl

lemma markAllCode_getElem? (c : Option String) (ps : List (Row × Bool)) (k : ℕ) :
    (markAllCode c ps)[k]? = ps[k]?.map fun p => (p.1, p.2 || codeMatches c p.1) := by
  induction ps generalizing k with
  | nil => simp [markAllCode]
  | cons p ps ih =>
    cases k with
    | zero => simp [markAllCode]
    | succ k => simp [markAllCode, ih]

lemma markAfterFirst_getElem? (c : Option String) (ps : List (Row × Bool)) (k : ℕ) :
    (markAfterFirst c ps)[k]?
      = ps[k]?.map fun p =>
          (p.1, p.2 || (codeMatches c p.1 && (ps.take k).any fun q => codeMatches c q.1)) := by
  induction ps generalizing k with
  | nil => simp [markAfterFirst]
  | cons p ps ih =>
    by_cases h : codeMatches c p.1
    · cases k with
      | zero => simp [markAfterFirst, h]
      | succ k => simp [markAfterFirst, h, markAllCode_getElem?]
    · cases k with
      | zero => simp [markAfterFirst, h]
      | succ k => simp [markAfterFirst, h, ih]

lemma markCode_getElem? (c : Option String) (ps : List (Row × Bool)) (k : ℕ) :
    (markCode c ps)[k]?
      = ps[k]?.map fun p =>
          (p.1, p.2 || (codeMatches c p.1 && (ps.take k).any fun q => codeMatches c q.1)) := by
  unfold markCode
  split
  · exact markAfterFirst_getElem? c ps k
  · next hcount =>
    cases hp : ps[k]? with
    | none => rfl
    | some p =>
      have hflag :
          (codeMatches c p.1 && (ps.take k).any fun q => codeMatches c q.1) = false := by
        by_cases hm : codeMatches c p.1
        · by_cases ha : ((ps.take k).any fun q => codeMatches c q.1) = true
          · exfalso
            apply hcount
            obtain ⟨q, hq, hqm⟩ := List.any_eq_true.mp ha
            have hsplit : ps = ps.take k ++ ps.drop k := (List.take_append_drop k ps).symm
            have hp' : p ∈ ps.drop k := by
              have : (ps.drop k)[0]? = some p := by
                rw [List.getElem?_drop]
                simpa using hp
              exact List.getElem?_mem this
            have h1 : 1 ≤ ((ps.take k).filter fun q => codeMatches c q.1).length := by
              have : q ∈ (ps.take k).filter fun q => codeMatches c q.1 :=
                List.mem_filter.mpr ⟨hq, hqm⟩
              exact List.length_pos.mpr (List.ne_nil_of_mem this)
            have h2 : 1 ≤ ((ps.drop k).filter fun q => codeMatches c q.1).length := by
              have : p ∈ (ps.drop k).filter fun q => codeMatches c q.1 :=
                List.mem_filter.mpr ⟨hp', hm⟩
              exact List.length_pos.mpr (List.ne_nil_of_mem this)
            calc 1 < 1 + 1 := by omega
              _ ≤ ((ps.take k).filter fun q => codeMatches c q.1).length
                    + ((ps.drop k).filter fun q => codeMatches c q.1).length := by omega
              _ = ((ps.take k ++ ps.drop k).filter fun q => codeMatches c q.1).length := by
                    rw [List.filter_append, List.length_append]
              _ = (ps.filter fun q => codeMatches c q.1).length := by
                    rw [List.take_append_drop]
          · simp only [Bool.not_eq_true] at ha
            simp [ha]
        · simp [Bool.eq_false_iff.mpr hm]
      simp [hp, hflag]

lemma any_map_fst (l : List (Row × Bool)) (m : Row → Bool) :
    (l.any fun q => m q.1) = (l.map fun p => p.1).any m := by
  induction l with
  | nil => rfl
  | cons p ps ih => simp [ih]

lemma foldl_markCode_getElem? (cs : List (Option String)) (ps : List (Row × Bool)) (k : ℕ) :
    (cs.foldl (fun a c => markCode c a) ps)[k]?
      = ps[k]?.map fun p =>
          (p.1, p.2 || cs.any fun c =>
            codeMatches c p.1 && (ps.take k).any fun q => codeMatches c q.1) := by
  induction cs generalizing ps with
  | nil =>
    cases hp : ps[k]? <;> simp [hp]
  | cons c cs ih =>
    have hfst : (markCode c ps).map (fun p => p.1) = ps.map fun p => p.1 :=
      markCode_map_fst c ps
    have htake : ∀ c' : Option String,
        (((markCode c ps).take k).any fun q => codeMatches c' q.1)
          = (ps.take k).any fun q => codeMatches c' q.1 := by
      intro c'
      rw [any_map_fst _ fun s => codeMatches c' s,
        any_map_fst (ps.take k) fun s => codeMatches c' s,
        List.map_take, List.map_take, hfst]
    simp only [List.foldl_cons]
    rw [ih (markCode c ps), markCode_getElem? c ps k]
    cases hp : ps[k]? with
    | none => rfl
    | some p => simp [htake, Bool.or_assoc]

lemma codeMatches_eq_true {c : Option String} {r : Row} :
    codeMatches c r = true ↔ ∃ a, c = some a ∧ r.code = some a := by
  cases c with
  | none => simp [codeMatches]
  | some a =>
    cases hr : r.code with
    | none => simp [codeMatches, hr]
    | some b =>
      simp only [codeMatches, hr, beq_iff_eq, Option.some.injEq]
      constructor
      · intro h
        exact ⟨a, rfl, h.symm⟩
      · rintro ⟨x, rfl, h2⟩
        exact h2.symm

lemma codeMatches_share {c : Option String} {r : Row} (h : codeMatches c r = true)
    (s : Row) : codeMatches c s = sharesCode r s := by
  obtain ⟨a, rfl, hra⟩ := codeMatches_eq_true.mp h
  unfold sharesCode
  rw [hra]

lemma codeMatches_comm (r s : Row) : codeMatches s.code r = sharesCode r s := by
  unfold sharesCode
  cases hr : r.code with
  | none => cases hs : s.code <;> simp [codeMatches, hr, hs]
  | some a =>
    cases hs : s.code with
    | none => simp [codeMatches, hr, hs]
    | some b =>
      simp only [codeMatches, hr, hs]
      rw [Bool.eq_iff_iff]
      simp only [beq_iff_eq]
      exact eq_comm

lemma bool_any_factor {β : Type} (l : List β) (m E : β → Bool) (S : Bool)
    (hE : ∀ c, m c = true → E c = S) :
    (l.any fun c => m c && E c) = (l.any m && S) := by
  induction l with
  | nil => simp
  | cons c l ih =>
    simp only [List.any_cons]
    cases hm : m c
    · simp [ih]
    · rw [hE c hm]
      cases S <;> simp [ih]

lemma any_map_code (l : List Row) (p : Option String → Bool) :
    ((l.map fun r => r.code).any p) = l.any fun s => p s.code := by
  induction l with
  | nil => rfl
  | cons r rs ih => simp [ih]

lemma any_filter_rows (l : List Row) (p q : Row → Bool) :
    ((l.filter p).any q) = l.any fun s => p s && q s := by
  induction l with
  | nil => rfl
  | cons r rs ih =>
    by_cases hp : p r <;> simp [hp, ih]

lemma b2bCodes_any (rows : List Row) (r : Row) :
    ((b2bCodes rows).any fun c => codeMatches c r)
      = rows.any fun s => sharesCode r s && isBackToBack s := by
  unfold b2bCodes
  rw [any_map_code, any_filter_rows]
  apply congrArg
  funext s
  rw [codeMatches_comm, Bool.and_comm]

lemma skipMarks_getElem? (rows : List Row) (k : ℕ) :
    (skipMarks rows)[k]? = rows[k]?.map fun r => (r, suppressedSpec rows k r) := by
  unfold skipMarks
  rw [foldl_markCode_getElem?, List.getElem?_map]
  cases hp : rows[k]? with
  | none => rfl
  | some r =>
    simp only [Option.map_some']
    have hpair : ∀ (l : List Row) (m : Row → Bool),
        ((l.map fun r => (r, false)).any fun q => m q.1) = l.any m := by
      intro l m
      induction l with
      | nil => rfl
      | cons x xs ih => simp [ih]
    have htake : ∀ c : Option String,
        (((rows.map fun r => (r, false)).take k).any fun q => codeMatches c q.1)
          = (rows.take k).any fun s => codeMatches c s := by
      intro c
      rw [← List.map_take, hpair]
    have hfactor :
        ((b2bCodes rows).any fun c =>
            codeMatches c r && (rows.take k).any fun s => codeMatches c s)
          = (((b2bCodes rows).any fun c => codeMatches c r) &&
              ((rows.take k).any fun s => sharesCode r s)) := by
      apply bool_any_factor
      intro c hc
      apply congrArg
      funext s
      exact codeMatches_share hc s
    simp only [htake, hfactor, b2bCodes_any, Bool.false_or]
    rfl

lemma skipMarks_eq_enum (rows : List Row) :
    skipMarks rows = rows.enum.map fun p => (p.2, suppressedSpec rows p.1 p.2) := by
  apply List.ext_getElem?
  intro k
  rw [skipMarks_getElem?, List.getElem?_map, List.getElem?_enum]
  cases rows[k]? <;> rfl

/-- C4: (i) a row is back-to-back iff its `Type` cell is non-null and
contains "back" after case-folding — a null `Type` never matches; (ii) the
collapsing pass keeps exactly the rows that are not suppressed, where a row
is suppressed iff it shares its `Code` with a group containing at least one
back-to-back row and is not the first row of that group in original order;
(iii) a retained back-to-back row's `EffectiveDuration` is the constant
150 whatever its own `Duration`, and every other row keeps its
`Duration`. -/
theorem c4_back_to_back_collapse (rows : List Row) :
    (∀ r : Row, isBackToBack r
      = match r.typ with
        | none => false
        | some t => containsSub ("back".toList) (t.toList.map Char.toLower)) ∧
    collapsed rows = collapsedSpec rows ∧
    (∀ r : Row, effectiveDuration r = if isBackToBack r then some 150 else r.duration) := by
  refine ⟨?_, ?_, fun r => rfl⟩
  · intro r
    cases h : r.typ with
    | none =>
      simp only [isBackToBack, strOfOpt, h]
      decide
    | some t => simp [isBackToBack, strOfOpt, h]
  · unfold collapsed collapsedSpec
    rw [skipMarks_eq_enum]
    rw [List.filter_map]
    rw [List.map_map]
    rfl

/-! ### C5: Top-N queries (`gen_top`, `late_reg`, `instructor_load`,
`room_usage`)

A Top-N query groups the rows by a key column (Code+Title, Hall or
Instructor — modelled as one string key), aggregates `Reg. Stud.` by sum,
sorts descending by the aggregate and keeps the first N rows.  Pandas
`groupby(sort=True)` emits the groups in ascending key order;
`sort_values(ascending=False)` computes an ascending argsort and reverses
the whole permutation (`nargsort`), so rows with equal aggregates come out
in reverse of their group-key order.  The ascending argsort itself is
modelled as a stable sort, which is exact for the small frames here
(numpy's introsort runs plain insertion sort below 16 elements). -/

/-- Ascending lexicographic order on strings by character code: the group
order produced by `groupby(sort=True)`. -/
def lexLe : List Char → List Char → Bool
  | [], _ => true
  | _ :: _, [] => false
  | c :: cs, d :: ds => if c = d then lexLe cs ds else decide (c < d)

def keyRel (a b : String) : Prop :=
  lexLe a.toList b.toList = true

instance : DecidableRel keyRel := fun a b =>
  inferInstanceAs (Decidable (lexLe a.toList b.toList = true))

/-- Pandas `groupby(...).sum()` on a nullable numeric column: null cells
are skipped and an all-null group sums to 0. -/
def sumOpt (l : List (Option ℚ)) : ℚ :=
  l.foldr (fun o acc => match o with | none => acc | some q => q + acc) 0

/-- `groupby(key, sort=True)[val].sum().reset_index()`: distinct keys in
ascending order, each with the sum of its values. -/
def groupbySum (rows : List (String × Option ℚ)) : List (String × ℚ) :=
  (List.insertionSort keyRel (rows.map fun p => p.1).dedup).map fun k =>
    (k, sumOpt ((rows.filter fun p => p.1 == k).map fun p => p.2))

def valLe (a b : String × ℚ) : Prop := a.2 ≤ b.2

instance : DecidableRel valLe := fun a b => inferInstanceAs (Decidable (a.2 ≤ b.2))

instance : IsTotal (String × ℚ) valLe := ⟨fun a b => le_total a.2 b.2⟩

instance : IsTrans (String × ℚ) valLe := ⟨fun _ _ _ h1 h2 => le_trans h1 h2⟩

/-- `sort_values(by=value, ascending=False)`: pandas reverses an ascending
argsort. -/
def sortDescending (groups : List (String × ℚ)) : List (String × ℚ) :=
  (List.insertionSort valLe groups).reverse

/-- A Top-N query (`gen_top` lines 215-216, `late_reg` lines 459-460 with
N = 10; `instructor_load` lines 650-652 with N = 15). -/
def genTop (n : ℕ) (rows : List (String × Option ℚ)) : List (String × ℚ) :=
  (sortDescending (groupbySum rows)).take n

def valGe (a b : String × ℚ) : Prop := b.2 ≤ a.2

instance : DecidableRel valGe := fun a b => inferInstanceAs (Decidable (b.2 ≤ a.2))

/-- The claim's sort: a stable DESCENDING sort, so that tied aggregates
keep their original group-key order, then truncate to N. -/
def topNSpecStable (n : ℕ) (rows : List (String × Option ℚ)) : List (String × ℚ) :=
  (List.insertionSort valGe (groupbySum rows)).take n

/-- Two groups with tied sums. -/
def tieRows : List (String × Option ℚ) := [("A", some 5), ("B", some 5)]

/-- Counterexample to C5 as stated: with two groups "A", "B" tied at sum 5,
the code returns the groups in REVERSE group-key order `[B, A]`, not the
stable order `[A, B]` the claim requires. -/
theorem c5_top_n_counterexample :
    genTop 10 tieRows = [("B", 5), ("A", 5)] ∧
    topNSpecStable 10 tieRows = [("A", 5), ("B", 5)] ∧
    genTop 10 tieRows ≠ topNSpecStable 10 tieRows := by
  have h0 : groupbySum tieRows = [("A", (5 : ℚ) + 0), ("B", (5 : ℚ) + 0)] := rfl
  have h5 : (5 : ℚ) + 0 = 5 := by norm_num
  rw [h5] at h0
  refine ⟨?_, ?_, ?_⟩
  · unfold genTop sortDescending
    rw [h0]
    decide
  · unfold topNSpecStable
    rw [h0]
    decide
  · unfold genTop sortDescending topNSpecStable
    rw [h0]
    decide

/-- Twelve groups with pairwise-distinct sums 1, ..., 12. -/
def twelveGroups : List (String × Option ℚ) :=
  [("C01", some 1), ("C02", some 2), ("C03", some 3), ("C04", some 4),
   ("C05", some 5), ("C06", some 6), ("C07", some 7), ("C08", some 8),
   ("C09", some 9), ("C10", some 10), ("C11", some 11), ("C12", some 12)]

/-- C5 (amended): each Top-N query groups by its key, aggregates by sum,
sorts the groups descending by the aggregate and truncates to the first N;
but aggregate ties come out in REVERSE group-key order (pandas reverses an
ascending sort for `ascending=False`), not in original group-key order.
The result always has `min N (number of groups)` rows, is pairwise
descending in the aggregate, and consists of grouped rows; 12 groups with
distinct sums yield exactly the top 10 in strictly descending order. -/
theorem c5_top_n_amended (n : ℕ) (rows : List (String × Option ℚ)) :
    (genTop n rows).length = min n (groupbySum rows).length ∧
    (genTop n rows).Pairwise (fun a b => b.2 ≤ a.2) ∧
    genTop n rows ⊆ groupbySum rows ∧
    (genTop 10 twelveGroups).map (fun p => p.1)
      = ["C12", "C11", "C10", "C09", "C08", "C07", "C06", "C05", "C04", "C03"] ∧
    genTop 2 tieRows = [("B", 5), ("A", 5)] := by
  refine ⟨?_, ?_, ?_, ?_, ?_⟩
  · unfold genTop sortDescending
    rw [List.length_take, List.length_reverse]
    rw [(List.perm_insertionSort valLe (groupbySum rows)).length_eq]
  · have hsorted : List.Sorted valLe (List.insertionSort valLe (groupbySum rows)) :=
      List.sorted_insertionSort valLe (groupbySum rows)
    have hrev : (List.insertionSort valLe (groupbySum rows)).reverse.Pairwise
        fun a b => b.2 ≤ a.2 :=
      List.pairwise_reverse.mpr hsorted
    exact List.Pairwise.sublist (List.take_sublist n _) hrev
  · intro x hx
    have h1 : x ∈ (List.insertionSort valLe (groupbySum rows)).reverse :=
      List.take_subset n _ hx
    rw [List.mem_reverse] at h1
    exact (List.perm_insertionSort valLe (groupbySum rows)).subset h1
  · have h0 : groupbySum twelveGroups
        = [("C01", (1 : ℚ) + 0), ("C02", (2 : ℚ) + 0), ("C03", (3 : ℚ) + 0),
           ("C04", (4 : ℚ) + 0), ("C05", (5 : ℚ) + 0), ("C06", (6 : ℚ) + 0),
           ("C07", (7 : ℚ) + 0), ("C08", (8 : ℚ) + 0), ("C09", (9 : ℚ) + 0),
           ("C10", (10 : ℚ) + 0), ("C11", (11 : ℚ) + 0), ("C12", (12 : ℚ) + 0)] := rfl
    norm_num at h0
    unfold genTop sortDescending
    rw [h0]
    decide
  · have h0 : groupbySum tieRows = [("A", (5 : ℚ) + 0), ("B", (5 : ℚ) + 0)] := rfl
    norm_num at h0
    unfold genTop sortDescending
    rw [h0]
    decide

/-! ### C6: day-of-week distribution -/

/-- `day_order` (line 281): the fixed weekday sequence. -/
def dayOrder : List String := ["M", "T", "W", "Th", "F"]

/-- `day_data` (lines 257-268): for each row, one observation per non-null
entry among Days1..Days5, carrying the row's full `Reg. Stud.` (0 when
null) — enrollment is not divided across days. -/
def dayData (rows : List Row) : List (String × ℚ) :=
  rows.flatMap fun r => (r.days.filterMap id).map fun d => (d, r.regStud.getD 0)

/-- `agg count` per day token. -/
def dayObsCount (obs : List (String × ℚ)) (d : String) : ℕ :=
  obs.countP fun o => o.1 == d

/-- `agg sum` per day token. -/
def dayObsSum (obs : List (String × ℚ)) (d : String) : ℚ :=
  ((obs.filter fun o => o.1 == d).map fun o => o.2).sum

def dayEntry (obs : List (String × ℚ)) (d : String) : String × ℕ × ℚ :=
  (d, dayObsCount obs d, dayObsSum obs d)

/-- `day_df.groupby('Day').agg(count, sum)` (lines 275-278): distinct day
tokens in ascending key order, each with its count and sum. -/
def dayGroups (obs : List (String × ℚ)) : List (String × ℕ × ℚ) :=
  (List.insertionSort keyRel (obs.map fun o => o.1).dedup).map (dayEntry obs)

/-- Position in the fixed weekday sequence (the categorical code of line
282); an unknown token sorts last, like categorical `NaN`. -/
def dayIdx (d : String) : ℕ :=
  dayOrder.indexOf d

def dayRel (a b : String × ℕ × ℚ) : Prop := dayIdx a.1 ≤ dayIdx b.1

instance : DecidableRel dayRel := fun a b =>
  inferInstanceAs (Decidable (dayIdx a.1 ≤ dayIdx b.1))

instance : IsTotal (String × ℕ × ℚ) dayRel := ⟨fun x y => Nat.le_total (dayIdx x.1) (dayIdx y.1)⟩

instance : IsTrans (String × ℕ × ℚ) dayRel := ⟨fun _ _ _ h1 h2 => le_trans h1 h2⟩

/-- `day_summary.sort_values('Day')` on the ordered categorical (lines
281-283). -/
def daySummary (rows : List Row) : List (String × ℕ × ℚ) :=
  List.insertionSort dayRel (dayGroups (dayData rows))

/-- Restatement of the specification's summary: one entry per day token
present in the observations, in the fixed order M, T, W, Th, F, with the
observation count and the enrollment sum of that day. -/
def daySummarySpec (rows : List Row) : List (String × ℕ × ℚ) :=
  (dayOrder.filter fun d => (dayData rows).any fun o => o.1 == d).map
    (dayEntry (dayData rows))

lemma any_fst_beq_iff (obs : List (String × ℚ)) (k : String) :
    ((obs.any fun o => o.1 == k) = true) ↔ k ∈ obs.map fun o => o.1 := by
  rw [List.any_eq_true]
  constructor
  · rintro ⟨o, ho, hk⟩
    rw [List.mem_map]
    exact ⟨o, ho, (beq_iff_eq.mp hk)⟩
  · intro hk
    rw [List.mem_map] at hk
    obtain ⟨o, ho, rfl⟩ := hk
    exact ⟨o, ho, beq_iff_eq.mpr rfl⟩

lemma dayIdx_inj : ∀ a ∈ dayOrder, ∀ b ∈ dayOrder, dayIdx a = dayIdx b → a = b := by
  decide

lemma dayOrder_strict : dayOrder.Pairwise fun a b => dayIdx a < dayIdx b := by
  decide

/-- C6: every row emits one observation per non-null Days1..Days5 entry
(the observation total is the total count of non-null day cells), each
observation carries the row's full `Reg. Stud.`; and when every day token
belongs to the fixed sequence, the summary lists each present day once in
the order M, T, W, Th, F with its observation count and enrollment sum. -/
theorem c6_day_distribution (rows : List Row) :
    (dayData rows).length = (rows.map fun r => (r.days.filterMap id).length).sum ∧
    ((dayData rows).all fun o =>
        rows.any fun r => o.2 == r.regStud.getD 0 && r.days.contains (some o.1)) = true ∧
    (((dayData rows).all fun o => dayOrder.contains o.1) = true →
      daySummary rows = daySummarySpec rows) := by
  refine ⟨?_, ?_, ?_⟩
  · unfold dayData
    rw [List.length_flatMap]
    have hfun : (List.length ∘ fun r : Row =>
        (r.days.filterMap id).map fun d => (d, r.regStud.getD 0))
        = fun r : Row => (r.days.filterMap id).length := by
      funext r
      simp [Function.comp]
    rw [hfun]
  · rw [List.all_eq_true]
    intro o ho
    unfold dayData at ho
    rw [List.mem_flatMap] at ho
    obtain ⟨r, hr, hmem⟩ := ho
    rw [List.mem_map] at hmem
    obtain ⟨d, hd, rfl⟩ := hmem
    rw [List.any_eq_true]
    refine ⟨r, hr, ?_⟩
    have hdays : some d ∈ r.days := by
      rw [List.mem_filterMap] at hd
      obtain ⟨a, ha, haa⟩ := hd
      exact haa ▸ ha
    simp [hdays]
  · intro hall
    have hall' : ∀ o ∈ dayData rows, o.1 ∈ dayOrder := by
      intro o ho
      have := List.all_eq_true.mp hall o ho
      simpa using this
    set obs := dayData rows with hobs
    set keys := List.insertionSort keyRel (obs.map fun o => o.1).dedup with hkeys
    set R := dayOrder.filter fun d => obs.any fun o => o.1 == d with hR
    have hkeys_perm : List.Perm keys (obs.map fun o => o.1).dedup :=
      List.perm_insertionSort keyRel _
    have hkeys_nodup : keys.Nodup := hkeys_perm.nodup_iff.mpr (List.nodup_dedup _)
    have hR_nodup : R.Nodup := List.Nodup.filter _ (by decide)
    have hmem_keys : ∀ k, k ∈ keys ↔ k ∈ obs.map fun o => o.1 := by
      intro k
      rw [hkeys_perm.mem_iff, List.mem_dedup]
    have hmem_R : ∀ k, k ∈ R ↔ (k ∈ dayOrder ∧ k ∈ obs.map fun o => o.1) := by
      intro k
      rw [hR, List.mem_filter, any_fst_beq_iff]
    have hkey_perm_R : List.Perm keys R := by
      rw [List.perm_ext_iff_of_nodup hkeys_nodup hR_nodup]
      intro k
      rw [hmem_keys, hmem_R]
      constructor
      · intro hk
        refine ⟨?_, hk⟩
        rw [List.mem_map] at hk
        obtain ⟨o, ho, rfl⟩ := hk
        exact hall' o ho
      · exact fun h => h.2
    have hperm : List.Perm (daySummary rows) (R.map (dayEntry obs)) := by
      have h1 : List.Perm (daySummary rows) (dayGroups obs) := by
        unfold daySummary
        rw [← hobs]
        exact List.perm_insertionSort dayRel _
      have h2 : List.Perm (dayGroups obs) (R.map (dayEntry obs)) := by
        unfold dayGroups
        exact (hkey_perm_R.map (dayEntry obs))
      exact h1.trans h2
    have hspec_strict : (R.map (dayEntry obs)).Pairwise
        fun a b => dayIdx a.1 < dayIdx b.1 := by
      rw [List.pairwise_map]
      exact List.Pairwise.filter _ dayOrder_strict
    have hsum_sorted : (daySummary rows).Pairwise dayRel := by
      unfold daySummary
      rw [← hobs]
      exact List.sorted_insertionSort dayRel _
    have hsum_keys_nodup : ((daySummary rows).map fun p => p.1).Nodup := by
      have h1 : List.Perm ((daySummary rows).map fun p => p.1)
          ((R.map (dayEntry obs)).map fun p => p.1) := hperm.map _
      have h2 : ((R.map (dayEntry obs)).map fun p => p.1) = R := by
        rw [List.map_map]
        exact List.map_id' R
      rw [h1.nodup_iff, h2]
      exact hR_nodup
    have hsum_ne : (daySummary rows).Pairwise fun a b => a.1 ≠ b.1 :=
      List.pairwise_map.mp hsum_keys_nodup
    have hsum_mem : ∀ x ∈ daySummary rows, x.1 ∈ dayOrder := by
      intro x hx
      have := hperm.subset hx
      rw [List.mem_map] at this
      obtain ⟨d, hd, rfl⟩ := this
      rw [hmem_R] at hd
      exact hd.1
    have hsum_strict : (daySummary rows).Pairwise fun a b => dayIdx a.1 < dayIdx b.1 := by
      have hboth := hsum_sorted.and hsum_ne
      refine hboth.imp_of_mem ?_
      intro a b ha hb hab
      have h1 : dayIdx a.1 ≤ dayIdx b.1 := hab.1
      have h2 : dayIdx a.1 ≠ dayIdx b.1 := by
        intro heq
        exact hab.2 (dayIdx_inj a.1 (hsum_mem a ha) b.1 (hsum_mem b hb) heq)
      omega
    haveI : IsAntisymm (String × ℕ × ℚ) (fun a b => dayIdx a.1 < dayIdx b.1) :=
      ⟨fun _ _ h1 h2 => absurd h2 (by omega)⟩
    exact List.eq_of_perm_of_sorted hperm hsum_strict hspec_strict

/-- The spec §8 example table: one row on three days, one row on one day. -/
def dayRows : List Row :=
  [{ days := [some "M", some "W", some "F", none, none], regStud := some 10 },
   { days := [some "T", none, none, none, none], regStud := some 20 }]

/-- Witness for C6: the all-tokens-known hypothesis is discharged on the
concrete 2-row table (which yields exactly 4 observations). -/
theorem c6_day_distribution_witness :
    (((dayData dayRows).all fun o => dayOrder.contains o.1) = true) ∧
    daySummary dayRows = daySummarySpec dayRows :=
  ⟨by decide, (c6_day_distribution dayRows).2.2 (by decide)⟩

/-! ### C7: occupancy buckets -/

/-- The occupancy rate of one row (the `Occupancy_Rate` column). -/
def rateOf (r : Row) : ℚ :=
  occupancyRate r.regStud r.hallCapacity

/-- `Series.nunique()` on the `Index` column: the number of distinct
non-null values (pandas drops `NaN` by default). -/
def nuniqueIndex (rows : List Row) : ℕ :=
  ((rows.filterMap fun r => r.idx).dedup).length

/-- `under_50` (line 940): distinct Index count among rows with rate < 50. -/
def under50 (rows : List Row) : ℕ :=
  nuniqueIndex (rows.filter fun r => decide (rateOf r < 50))

/-- `optimal` (line 945): distinct Index count among rows with
50 ≤ rate < 90. -/
def optimalCount (rows : List Row) : ℕ :=
  nuniqueIndex (rows.filter fun r => decide (50 ≤ rateOf r ∧ rateOf r < 90))

/-- `over_90` (line 950): distinct Index count among rows with rate ≥ 90. -/
def over90 (rows : List Row) : ℕ :=
  nuniqueIndex (rows.filter fun r => decide (90 ≤ rateOf r))

lemma occupancyRate_concrete {r c : ℚ} {n : ℤ} (hc : ¬c = 0) (h : r / c * 100 = (n : ℚ)) :
    occupancyRate (some r) (some c) = (n : ℚ) := by
  unfold occupancyRate
  simp only [if_neg hc, Option.map_some', Option.getD_some]
  exact round1_eq_intCast h

def bucketRowA : Row := { idx := some 1, regStud := some 20, hallCapacity := some 50 }

def bucketRowB : Row := { idx := some 1, regStud := some 19, hallCapacity := some 20 }

/-- One section (`Index = 1`) meeting twice: once in a 50-seat hall at rate
40% and once in a 20-seat hall at rate 95%. -/
def bucketRows : List Row := [bucketRowA, bucketRowB]

lemma rateOf_bucketRowA : rateOf bucketRowA = 40 := by
  have h : occupancyRate (some 20) (some 50) = ((40 : ℤ) : ℚ) :=
    occupancyRate_concrete (by norm_num) (by norm_num)
  calc rateOf bucketRowA = occupancyRate (some 20) (some 50) := rfl
    _ = ((40 : ℤ) : ℚ) := h
    _ = 40 := by norm_num

lemma rateOf_bucketRowB : rateOf bucketRowB = 95 := by
  have h : occupancyRate (some 19) (some 20) = ((95 : ℤ) : ℚ) :=
    occupancyRate_concrete (by norm_num) (by norm_num)
  calc rateOf bucketRowB = occupancyRate (some 19) (some 20) := rfl
    _ = ((95 : ℤ) : ℚ) := h
    _ = 95 := by norm_num

/-- Counterexample to C7 as stated: the bucket query classifies ROWS, not
deduplicated sections, and counts distinct Index values per bucket; a
section whose rows fall in different buckets is counted in each, so the
bucket counts sum to 2 while there is exactly 1 distinct section. -/
theorem c7_occupancy_buckets_counterexample :
    under50 bucketRows = 1 ∧ optimalCount bucketRows = 0 ∧ over90 bucketRows = 1 ∧
    nuniqueIndex bucketRows = 1 ∧
    under50 bucketRows + optimalCount bucketRows + over90 bucketRows
      ≠ nuniqueIndex bucketRows := by
  have hf1 : (bucketRows.filter fun r => decide (rateOf r < 50)) = [bucketRowA] := by
    unfold bucketRows
    rw [List.filter_cons, List.filter_cons, List.filter_nil, rateOf_bucketRowA,
      rateOf_bucketRowB]
    norm_num
  have hf2 : (bucketRows.filter fun r => decide (50 ≤ rateOf r ∧ rateOf r < 90)) = [] := by
    unfold bucketRows
    rw [List.filter_cons, List.filter_cons, List.filter_nil, rateOf_bucketRowA,
      rateOf_bucketRowB]
    norm_num
  have hf3 : (bucketRows.filter fun r => decide (90 ≤ rateOf r)) = [bucketRowB] := by
    unfold bucketRows
    rw [List.filter_cons, List.filter_cons, List.filter_nil, rateOf_bucketRowA,
      rateOf_bucketRowB]
    norm_num
  refine ⟨?_, ?_, ?_, ?_, ?_⟩
  · rw [under50, hf1]; decide
  · rw [optimalCount, hf2]; decide
  · rw [over90, hf3]; decide
  · decide
  · rw [under50, optimalCount, over90, hf1, hf2, hf3]; decide

lemma length_filterMap_eq_countP (f : Row → Option ℤ) (l : List Row) :
    (l.filterMap f).length = l.countP fun a => (f a).isSome := by
  induction l with
  | nil => rfl
  | cons a l ih =>
    cases h : f a <;> simp [List.filterMap_cons, h, ih, List.countP_cons]

lemma nunique_of_nodup {l : List Row} (h : (l.filterMap fun r => r.idx).Nodup) :
    nuniqueIndex l = l.countP fun r => r.idx.isSome := by
  unfold nuniqueIndex
  rw [List.Nodup.dedup h]
  exact length_filterMap_eq_countP _ l

/-- C7 (amended): every row's occupancy rate falls in exactly one of the
three buckets (<50, [50,90), ≥90), and each bucket reports the number of
distinct non-null Index values among ITS rows; when each Index occurs on at
most one row no section can straddle buckets, and the three bucket counts
sum to the number of distinct sections.  (Without that hypothesis one
Index can be counted in several buckets, as the counterexample shows.) -/
theorem c7_occupancy_buckets_amended (rows : List Row) :
    (∀ r : Row,
      (decide (rateOf r < 50)).toNat + (decide (50 ≤ rateOf r ∧ rateOf r < 90)).toNat
        + (decide (90 ≤ rateOf r)).toNat = 1) ∧
    ((rows.filterMap fun r => r.idx).Nodup →
      under50 rows + optimalCount rows + over90 rows = nuniqueIndex rows) := by
  have htri : ∀ r : Row,
      (decide (rateOf r < 50)).toNat + (decide (50 ≤ rateOf r ∧ rateOf r < 90)).toNat
        + (decide (90 ≤ rateOf r)).toNat = 1 := by
    intro r
    by_cases h1 : rateOf r < 50
    · have h2 : ¬(50 ≤ rateOf r ∧ rateOf r < 90) := fun h => absurd h.1 (not_le.mpr h1)
      have h3 : ¬(90 ≤ rateOf r) := not_le.mpr (lt_trans h1 (by norm_num))
      simp [h1, h2, h3]
    · by_cases h2 : rateOf r < 90
      · have ha : 50 ≤ rateOf r := not_lt.mp h1
        have h3 : ¬(90 ≤ rateOf r) := not_le.mpr h2
        simp [h1, ha, h2, h3]
      · have ha : 90 ≤ rateOf r := not_lt.mp h2
        have hc : ¬(50 ≤ rateOf r ∧ rateOf r < 90) := fun h => absurd h.2 h2
        simp [h1, hc, ha]
  refine ⟨htri, ?_⟩
  intro hnodup
  have hsub : ∀ p : Row → Bool,
      ((rows.filter p).filterMap fun r => r.idx).Nodup := by
    intro p
    exact List.Nodup.sublist (List.Sublist.filterMap _ (List.filter_sublist rows)) hnodup
  have hb1 : under50 rows
      = (rows.filter fun r => decide (rateOf r < 50)).countP fun r => r.idx.isSome :=
    nunique_of_nodup (hsub _)
  have hb2 : optimalCount rows
      = (rows.filter fun r => decide (50 ≤ rateOf r ∧ rateOf r < 90)).countP
          fun r => r.idx.isSome :=
    nunique_of_nodup (hsub _)
  have hb3 : over90 rows
      = (rows.filter fun r => decide (90 ≤ rateOf r)).countP fun r => r.idx.isSome :=
    nunique_of_nodup (hsub _)
  rw [hb1, hb2, hb3, nunique_of_nodup hnodup]
  simp only [List.countP_filter]
  apply countP_three_split
  intro r _
  cases hs : r.idx.isSome
  · simp [hs]
  · have := htri r
    simpa [hs] using this

def bucketRowsNodup : List Row :=
  [{ idx := some 1, regStud := some 20, hallCapacity := some 50 },
   { idx := some 2, regStud := some 19, hallCapacity := some 20 }]

/-- Witness for C7 (amended): on a table whose Index values are pairwise
distinct, the three bucket counts sum to the distinct-section count. -/
theorem c7_occupancy_buckets_witness :
    ((bucketRowsNodup.filterMap fun r => r.idx).Nodup) ∧
    under50 bucketRowsNodup + optimalCount bucketRowsNodup + over90 bucketRowsNodup
      = nuniqueIndex bucketRowsNodup :=
  ⟨by decide, (c7_occupancy_buckets_amended bucketRowsNodup).2 (by decide)⟩

/-! ### C8: building extraction from the Hall label -/

/-- Python `str.split('/')`: split on EVERY slash (`"".split('/') = [""]`,
`"a/".split('/') = ["a", ""]`). -/
def splitSlash : List Char → List (List Char)
  | [] => [[]]
  | c :: cs =>
    match splitSlash cs with
    | [] => [[]]
    | g :: gs => if c = '/' then [] :: g :: gs else (c :: g) :: gs

/-- Python `str.strip()`: drop whitespace from both ends. -/
def trimChars (l : List Char) : List Char :=
  ((l.dropWhile Char.isWhitespace).reverse.dropWhile Char.isWhitespace).reverse

/-- `Building` (lines 768, 856):
`Hall.astype(str).str.split('/').str[1].str.strip()` — the SECOND field of
the split (the text between the first and second slash), null when the
label has no slash. -/
def buildingOf (hall : Option String) : Option String :=
  ((splitSlash (strOfOpt hall).toList)[1]?).map fun cs => String.mk (trimChars cs)

/-- Everything after the first slash, or null when there is none. -/
def afterFirstSlash : List Char → Option (List Char)
  | [] => none
  | c :: cs => if c = '/' then some cs else afterFirstSlash cs

/-- Restatement of C8 as claimed: the substring of Hall after the FIRST
"/", trimmed; null for a null cell or a label without "/". -/
def buildingClaim (hall : Option String) : Option String :=
  match hall with
  | none => none
  | some s => (afterFirstSlash s.toList).map fun cs => String.mk (trimChars cs)

/-- Restatement of C8 as amended: the segment BETWEEN the first "/" and
the following "/" (or the end of the label), trimmed. -/
def buildingAmended (hall : Option String) : Option String :=
  match hall with
  | none => none
  | some s =>
    (afterFirstSlash s.toList).map fun cs =>
      String.mk (trimChars (cs.takeWhile fun c => !(c == '/')))

/-- `valid_building_df` (lines 771-774): rows with a non-null Hall and a
non-null extracted Building; rooms without a building-qualified label are
excluded from building-level aggregates, not zero-filled. -/
def validBuildings (rows : List Row) : List Row :=
  rows.filter fun r => r.hall.isSome && (buildingOf r.hall).isSome

lemma splitSlash_ne_nil (l : List Char) : splitSlash l ≠ [] := by
  cases l with
  | nil => simp [splitSlash]
  | cons c cs =>
    unfold splitSlash
    split <;> [simp; split <;> simp]

lemma splitSlash_head? (l : List Char) :
    (splitSlash l).head? = some (l.takeWhile fun c => !(c == '/')) := by
  induction l with
  | nil => rfl
  | cons c cs ih =>
    cases h : splitSlash cs with
    | nil => exact absurd h (splitSlash_ne_nil cs)
    | cons g gs =>
      by_cases hc : c = '/'
      · subst hc
        simp [splitSlash, h]
      · have hg : g = cs.takeWhile fun c => !(c == '/') := by
          have := ih
          rw [h] at this
          simpa using this
        simp [splitSlash, h, hc, List.takeWhile_cons, hg]

lemma splitSlash_getElem1 (l : List Char) :
    (splitSlash l)[1]?
      = (afterFirstSlash l).map fun cs => cs.takeWhile fun c => !(c == '/') := by
  induction l with
  | nil => rfl
  | cons c cs ih =>
    cases h : splitSlash cs with
    | nil => exact absurd h (splitSlash_ne_nil cs)
    | cons g gs =>
      by_cases hc : c = '/'
      · subst hc
        have hg : g = cs.takeWhile fun c => !(c == '/') := by
          have := splitSlash_head? cs
          rw [h] at this
          simpa using this
        simp [splitSlash, h, afterFirstSlash, hg]
      · have h1 : splitSlash (c :: cs) = (c :: g) :: gs := by
          unfold splitSlash
          rw [h]
          simp [hc]
        have ih' := ih
        rw [h] at ih'
        have h2 : afterFirstSlash (c :: cs) = afterFirstSlash cs := by
          simp [afterFirstSlash, hc]
        rw [h1, h2]
        exact ih'

lemma afterFirstSlash_isSome (l : List Char) :
    (afterFirstSlash l).isSome = l.contains '/' := by
  induction l with
  | nil => rfl
  | cons c cs ih =>
    by_cases hc : c = '/'
    · subst hc
      simp [afterFirstSlash]
    · simp [afterFirstSlash, hc, ih, List.contains_cons]
      intro h
      exact absurd h.symm hc

def hallMulti : Option String := some "215/Dostyk/old"

/-- Counterexample to C8 as stated: on the label "215/Dostyk/old" the code
extracts the field between the first and second slash ("Dostyk"), not the
whole trimmed suffix after the first slash ("Dostyk/old"). -/
theorem c8_building_counterexample :
    buildingOf hallMulti = some "Dostyk" ∧
    buildingClaim hallMulti = some "Dostyk/old" ∧
    buildingOf hallMulti ≠ buildingClaim hallMulti := by
  refine ⟨by decide, by decide, by decide⟩

/-- C8 (amended): building extraction returns the label's SECOND
slash-separated field — the substring strictly between the first "/" and
the next "/" or the end — trimmed of surrounding whitespace, and null when
the cell is null or contains no "/"; `Building` is non-null exactly when
the label contains a "/", and rooms without a slash-qualified label are
excluded from building-level aggregates (not zero-filled). -/
theorem c8_building_amended (hall : Option String) :
    buildingOf hall = buildingAmended hall ∧
    (buildingOf hall).isSome = (strOfOpt hall).toList.contains '/' ∧
    validBuildings [{ hall := some "Online" }] = [] := by
  refine ⟨?_, ?_, by decide⟩
  · cases hall with
    | none => rfl
    | some s =>
      show ((splitSlash s.toList)[1]?).map (fun cs => String.mk (trimChars cs))
          = (afterFirstSlash s.toList).map fun cs =>
              String.mk (trimChars (cs.takeWhile fun c => !(c == '/')))
      rw [splitSlash_getElem1]
      cases afterFirstSlash s.toList <;> rfl
  · unfold buildingOf
    rw [splitSlash_getElem1]
    cases h : afterFirstSlash (strOfOpt hall).toList with
    | none =>
      have := afterFirstSlash_isSome (strOfOpt hall).toList
      rw [h] at this
      simpa using this.symm
    | some cs =>
      have := afterFirstSlash_isSome (strOfOpt hall).toList
      rw [h] at this
      simpa using this.symm

/-! ### C9: empty College selection -/

/-- The College row filter (lines 171-175): keep the rows whose College is
in the checked set (a null College is never in the set), or produce
`df.iloc[0:0]` — the empty table — when no College is checked. -/
def collegeFilter (rows : List Row) (selected : List String) : List Row :=
  if selected.isEmpty then []
  else rows.filter fun r =>
    match r.college with
    | some c => selected.contains c
    | none => false

/-! ### C10: the facility key-metric filter -/

/-- `valid_capacity_df` (lines 720-724): rows whose `Hall` is non-null,
whose `Hall capacity` parsed as a number, and whose `Hall` string contains
at least one decimal digit. -/
def validCapacity (rows : List Row) : List Row :=
  rows.filter fun r =>
    r.hall.isSome && r.hallCapacity.isSome &&
      (strOfOpt r.hall).toList.any isDigitChar

/-- `total_rooms` (line 731): distinct Hall count over the valid rows. -/
def totalRooms (rows : List Row) : ℕ :=
  (((validCapacity rows).filterMap fun r => r.hall).dedup).length

/-- `min_capacity` (line 737): minimum capacity over the valid rows. -/
def minCapacity (rows : List Row) : Option ℚ :=
  ((validCapacity rows).filterMap fun r => r.hallCapacity).foldr
    (fun q acc =>
      match acc with
      | none => some q
      | some m => some (min q m)) none

/-- `max_capacity` (line 743): maximum capacity over the valid rows. -/
def maxCapacity (rows : List Row) : Option ℚ :=
  ((validCapacity rows).filterMap fun r => r.hallCapacity).foldr
    (fun q acc =>
      match acc with
      | none => some q
      | some m => some (max q m)) none

/-- A digit-labelled room and a purely alphabetic room, both with valid
capacities. -/
def facilityRows : List Row :=
  [{ hall := some "215/Dostyk", hallCapacity := some 30 },
   { hall := some "Online", hallCapacity := some 5 }]

/-- C10: the facility key metrics are computed only over rows whose Hall is
non-null, whose capacity parsed as a number, and whose Hall label contains
at least one decimal digit; a row with an alphabetic-only Hall label is
silently excluded even when its capacity is valid — in the two-room table
the digitless "Online" room (capacity 5) does not contribute, so Total
Rooms is 1 and both capacity extremes are 30. -/
theorem c10_valid_capacity_filter (rows : List Row) (r : Row) :
    (r ∈ validCapacity rows
      ↔ (r ∈ rows ∧ r.hallCapacity.isSome = true ∧
          ∃ h, r.hall = some h ∧ h.toList.any isDigitChar = true)) ∧
    validCapacity [{ hall := some "Online", hallCapacity := some 30 }] = [] ∧
    totalRooms facilityRows = 1 ∧
    minCapacity facilityRows = some 30 ∧
    maxCapacity facilityRows = some 30 := by
  refine ⟨?_, by decide, by decide, by decide, by decide⟩
  unfold validCapacity
  rw [List.mem_filter]
  simp only [Bool.and_eq_true]
  constructor
  · rintro ⟨hmem, ⟨hs, hcap⟩, hdig⟩
    cases hh : r.hall with
    | none => rw [hh] at hs; simp at hs
    | some h =>
      refine ⟨hmem, hcap, h, rfl, ?_⟩
      rw [hh] at hdig
      exact hdig
  · rintro ⟨hmem, hcap, h, hh, hdig⟩
    refine ⟨hmem, ⟨?_, hcap⟩, ?_⟩
    · rw [hh]; rfl
    · rw [hh]
      exact hdig

/-- C9: with zero Colleges selected the filtered table is empty, and every
modelled downstream aggregation query maps the empty table to an empty
result (or a zero count) instead of raising — they are total functions with
explicit empty-input values. -/
theorem c9_empty_selection (rows : List Row) (n : ℕ) :
    collegeFilter rows [] = [] ∧
    dayData [] = [] ∧
    daySummary [] = [] ∧
    daySummarySpec [] = [] ∧
    genTop n [] = [] ∧
    collapsed [] = [] ∧
    dfUnique [] = [] ∧
    totalCourses [] = 0 ∧
    undergradCount [] = 0 ∧
    masterCount [] = 0 ∧
    foundationCount [] = 0 ∧
    under50 [] = 0 ∧
    optimalCount [] = 0 ∧
    over90 [] = 0 ∧
    nuniqueIndex [] = 0 ∧
    validBuildings [] = [] ∧
    validCapacity [] = [] := by
  refine ⟨rfl, rfl, rfl, by decide, ?_, rfl, rfl, rfl, rfl, rfl, rfl, rfl, rfl, rfl,
    rfl, rfl, rfl⟩
  show ((List.insertionSort valLe (groupbySum [])).reverse).take n = []
  have h : groupbySum [] = [] := rfl
  rw [h]
  simp

end F2025
